import Mathlib

/-!
Shallow embedding of the Primate-monitor telemetry store and collector
(src/monitor.py, src/dashboard.py).

Modelling conventions:
* SQLite timestamps are modelled as integers (`Int`), ordered as the DATETIME
  values are; `datetime.datetime.utcnow()` at the start of a call is passed in
  as the `now : Int` argument.
* SQLite REAL / Python float values are modelled as `Int`: no claim depends on
  fractional arithmetic, only on presence, defaults (0) and equality.
* A Python numeric coercion (`float(x)` / `int(x)`) is modelled as an
  `Option Int`: `some v` when the coercion succeeds with value `v`, `none`
  when it raises.
* The three SQLite tables are lists of rows in insertion order; `SELECT ...
  ORDER BY timestamp ASC` is modelled with `List.mergeSort`.
* The sqlite3 Python driver opens an implicit transaction before the first
  INSERT/DELETE and makes it visible to other connections only at
  `conn.commit()`; a reader on another connection therefore observes either
  the pre-call store or the fully committed store, never the pending state.
-/

namespace PrimateMonitor

/-- A row of the `equity_log` table: `(timestamp DATETIME, equity REAL)`. -/
structure EquityRow where
  ts : Int
  equity : Int
deriving DecidableEq, Repr, BEq

/-- A row of the `position_log` table:
`(timestamp DATETIME, symbol TEXT, size REAL, side TEXT)`.
`symbol`/`side` are `Option String` because `pos.get("symbol")` /
`pos.get("side")` may return `None`, stored as SQL NULL. -/
structure PositionRow where
  ts : Int
  symbol : Option String
  size : Int
  side : Option String
deriving DecidableEq, Repr, BEq

/-- A row of the `signal_log` table:
`(timestamp DATETIME, asset TEXT, tf TEXT, signal_val INTEGER)`. -/
structure SignalRow where
  ts : Int
  asset : Option String
  tf : Option String
  signal_val : Int
deriving DecidableEq, Repr, BEq

/-- The persistent state of `history.db`: the three logs created by
`init_db` in src/monitor.py. -/
structure Store where
  equity_log : List EquityRow
  position_log : List PositionRow
  signal_log : List SignalRow
deriving DecidableEq, Repr, BEq

/-- The store `init_db` leaves behind on a fresh volume: three empty tables. -/
def init_db : Store := ⟨[], [], []⟩

/-! ## prune_old_data (src/monitor.py lines 62-76)

`DELETE FROM <log> WHERE timestamp < cutoff` on each of the three tables,
where `cutoff = utcnow() - RETENTION_DAYS`.  We pass the cutoff in directly. -/

/-- The three `DELETE ... WHERE timestamp < ?` statements of
`prune_old_data`, applied to a store at a given cutoff. -/
def prune_old_data (cutoff : Int) (s : Store) : Store where
  equity_log := s.equity_log.filter (fun r => !decide (r.ts < cutoff))
  position_log := s.position_log.filter (fun r => !decide (r.ts < cutoff))
  signal_log := s.signal_log.filter (fun r => !decide (r.ts < cutoff))

/-- `prune_old_data` as observed by its caller: the whole body is inside
`try: ... except Exception as e: print(...)`, so when the storage layer fails
(`fail = true`, e.g. lock contention before the commit) the transaction is
never committed — the store is unchanged — and the exception is swallowed.
The second component records whether the caller sees an exception; the
`except` clause makes it `false` on every path. -/
def prune_old_data_run (fail : Bool) (cutoff : Int) (s : Store) : Store × Bool :=
  if fail then (s, false) else (prune_old_data cutoff s, false)

/-! ## save_history_snapshot (src/monitor.py lines 78-118)

The function opens a connection, takes `now = utcnow()` once, then runs three
independently try/except-guarded sections that `execute` INSERTs into the
implicit transaction, and finally commits.  We model the pending
(uncommitted) transaction as a `Pending` record threaded through the three
sections, and the commit as appending it to the store. -/

/-- The rows executed so far inside the still-uncommitted transaction of one
`save_history_snapshot` call. -/
structure Pending where
  eq : List EquityRow
  pos : List PositionRow
  sig : List SignalRow
deriving DecidableEq, Repr

/-- The shapes the `portfolio` argument of `save_history_snapshot` can take,
as distinguished by the equity section's control flow
(`portfolio.get("accounts", {})`, `isinstance(accounts, dict)`,
`accounts.get("flex", {})`, `float(flex_wallet.get("marginEquity", 0))`). -/
inductive EquitySource
  /-- `portfolio` is not a dict: `portfolio.get` raises, the section's
  `except` fires before the INSERT — no equity row. -/
  | notDict
  /-- `"accounts"` key absent: `accounts = {}`, `flex_wallet = {}`,
  `marginEquity` defaults to `0` — equity row 0. -/
  | noAccounts
  /-- `"accounts"` present but not a dict: the `isinstance` guard skips the
  lookup, `total_equity` stays `0.0` — equity row 0. -/
  | accountsNotDict
  /-- `"flex"` key absent: `flex_wallet = {}`, default `0` — equity row 0. -/
  | noFlex
  /-- `"flex"` present but not a dict: `flex_wallet.get` raises — no row. -/
  | flexNotDict
  /-- `"marginEquity"` key absent: `float(0) = 0` — equity row 0. -/
  | noMargin
  /-- `"marginEquity"` present; `float(...)` succeeds with `some v` and the
  row `(now, v)` is inserted, or raises (`none`) and the section aborts
  before its INSERT. -/
  | margin (c : Option Int)
deriving DecidableEq, Repr

/-- What the equity section inserts: `some v` means one row `(now, v)`,
`none` means the section raised before its single `execute`. -/
def parseEquity : EquitySource → Option Int
  | .notDict => none
  | .noAccounts => some 0
  | .accountsNotDict => some 0
  | .noFlex => some 0
  | .flexNotDict => none
  | .noMargin => some 0
  | .margin none => none
  | .margin (some v) => some v

/-- Section 1 of `save_history_snapshot`: try/except around the navigation
to `marginEquity` and the single equity INSERT. -/
def runEquitySection (now : Int) (p : EquitySource) (t : Pending) : Pending :=
  match parseEquity p with
  | none => t
  | some v => { t with eq := t.eq ++ [⟨now, v⟩] }

/-- One element of the `openPositions` list as the positions loop sees it. -/
inductive RawPos
  /-- The element is not a dict: `pos.get("symbol")` raises and the whole
  positions section aborts (remaining elements are skipped). -/
  | bad
  /-- A dict element: `symbol = pos.get("symbol")`,
  `size` is the outcome of `float(pos.get("size", 0))` (`none` = raises),
  `side = pos.get("side")`. -/
  | ok (symbol : Option String) (size : Option Int) (side : Option String)
deriving DecidableEq, Repr

/-- The `for pos in open_positions` loop: each well-formed element with a
coercible size is INSERTed; the first failure raises out of the loop into the
section's `except`, keeping the rows already executed and dropping the rest. -/
def posLoop (now : Int) : List RawPos → Pending → Pending
  | [], t => t
  | .bad :: _, t => t
  | .ok _ none _ :: _, t => t
  | .ok sym (some v) side :: rest, t =>
      posLoop now rest { t with pos := t.pos ++ [⟨now, sym, v, side⟩] }

/-- Section 2 of `save_history_snapshot`.  The `positions` argument is
`none` when `positions.get("openPositions", [])` itself raises (e.g.
`positions` is not a dict) — then no position row is executed — and
`some l` when it yields the list `l`. -/
def runPositionsSection (now : Int) (ps : Option (List RawPos)) (t : Pending) : Pending :=
  match ps with
  | none => t
  | some l => posLoop now l t

/-- One element of the `signals` list as the signals loop sees it. -/
inductive RawSig
  /-- Not a dict: `sig.get` raises, aborting the signals section. -/
  | bad
  /-- A dict element: `asset`, `tf`, and the outcome of
  `int(sig.get("signal_val", 0))` (`none` = raises). -/
  | ok (asset : Option String) (tf : Option String) (sv : Option Int)
deriving DecidableEq, Repr

/-- The `for sig in signals` loop, with the same abort-on-first-failure
shape as the positions loop. -/
def sigLoop (now : Int) : List RawSig → Pending → Pending
  | [], t => t
  | .bad :: _, t => t
  | .ok _ _ none :: _, t => t
  | .ok a tf (some v) :: rest, t =>
      sigLoop now rest { t with sig := t.sig ++ [⟨now, a, tf, v⟩] }

/-- Section 3 of `save_history_snapshot`. -/
def runSignalsSection (now : Int) (sg : List RawSig) (t : Pending) : Pending :=
  sigLoop now sg t

/-- The pending transaction built by one `save_history_snapshot` call:
the three sections run in order on one connection. -/
def snapshotPending (now : Int) (p : EquitySource) (ps : Option (List RawPos))
    (sg : List RawSig) : Pending :=
  runSignalsSection now sg (runPositionsSection now ps (runEquitySection now p ⟨[], [], []⟩))

/-- `save_history_snapshot`: run the three sections, then `conn.commit()`
appends the pending rows to the three logs. -/
def save_history_snapshot (now : Int) (p : EquitySource) (ps : Option (List RawPos))
    (sg : List RawSig) (s : Store) : Store :=
  let t := snapshotPending now p ps sg
  { equity_log := s.equity_log ++ t.eq
    position_log := s.position_log ++ t.pos
    signal_log := s.signal_log ++ t.sig }

/-- `save_history_snapshot` as observed by its caller when the storage layer
fails.  `sqlite3.connect` and the final `conn.commit()` are outside every
`try`, so a failure there (`connectFail` / `commitFail`) propagates to the
caller (second component `true`); in both cases nothing is committed and the
visible store is unchanged. -/
def save_history_snapshot_run (connectFail commitFail : Bool) (now : Int)
    (p : EquitySource) (ps : Option (List RawPos)) (sg : List RawSig)
    (s : Store) : Store × Bool :=
  if connectFail || commitFail then (s, true)
  else (save_history_snapshot now p ps sg s, false)

/-- The store states a reader on another connection can observe around one
`save_history_snapshot` call: the state before the call and the state after
`conn.commit()`.  The pending transaction in between is invisible to other
connections (sqlite transaction isolation). -/
def appendObservable (now : Int) (p : EquitySource) (ps : Option (List RawPos))
    (sg : List RawSig) (s : Store) : List Store :=
  [s, save_history_snapshot now p ps sg s]

/-- The rows carrying a given timestamp in each of the three logs. -/
def rowsAt (t : Int) (s : Store) :
    List EquityRow × List PositionRow × List SignalRow :=
  (s.equity_log.filter (fun r => r.ts == t),
   s.position_log.filter (fun r => r.ts == t),
   s.signal_log.filter (fun r => r.ts == t))

/-- The equity rows one `save_history_snapshot` call commits. -/
def eqRowsOf (now : Int) (p : EquitySource) : List EquityRow :=
  match parseEquity p with
  | none => []
  | some v => [⟨now, v⟩]

/-- The position rows one `save_history_snapshot` call commits. -/
def posRowsOf (now : Int) (ps : Option (List RawPos)) : List PositionRow :=
  (runPositionsSection now ps ⟨[], [], []⟩).pos

/-- The signal rows one `save_history_snapshot` call commits. -/
def sigRowsOf (now : Int) (sg : List RawSig) : List SignalRow :=
  (runSignalsSection now sg ⟨[], [], []⟩).sig

/-! ## The collector loop (src/monitor.py lines 157-195)

`main` runs `while True`, and the whole tick body — fetch, snapshot files,
`save_history_snapshot`, `prune_old_data` — sits inside one
`try: ... except Exception as e: print(f"[Loop Error] {e}")`, after which the
loop sleeps and iterates again. -/

/-- What one tick of the collector loop does, as far as the store state is
concerned. -/
inductive TickBehavior
  /-- An exception during the fetch phase (or the snapshot-file writes):
  the rest of the tick body is skipped by the `except`, nothing is appended
  or pruned. -/
  | fetchFail
  /-- The fetch phase yielded payloads `(p, ps, sg)` at instant `now`;
  `appendFail` models `save_history_snapshot` raising out of
  `sqlite3.connect`/`conn.commit` (then `prune_old_data` is skipped too);
  `pruneFail` models a storage failure inside `prune_old_data` (swallowed
  there). -/
  | run (now : Int) (p : EquitySource) (ps : Option (List RawPos))
      (sg : List RawSig) (appendFail : Bool) (pruneFail : Bool) (cutoff : Int)
deriving Repr

/-- One iteration of `main`'s `while True` body.  A total function: every
failure pattern is caught by the tick's `except` and yields a next state. -/
def tick : TickBehavior → Store → Store
  | .fetchFail, s => s
  | .run now p ps sg appendFail pruneFail cutoff, s =>
      if appendFail then s
      else (prune_old_data_run pruneFail cutoff (save_history_snapshot now p ps sg s)).1

/-- Run the collector loop over a finite schedule of tick behaviours,
counting the ticks that ran to completion (reached the sleep at the bottom
of the loop body). -/
def runLoop (ticks : List TickBehavior) (s : Store) : Store × Nat :=
  ticks.foldl (fun acc b => (tick b acc.1, acc.2 + 1)) (s, 0)

/-! ## The dashboard range query (src/dashboard.py lines 30-52)

`_get_historical_data(hours)` returns `(None, None, None)` when the database
file does not exist, and otherwise runs, with
`cutoff = utcnow() - timedelta(hours=hours)`, one
`SELECT ... WHERE timestamp > ? ORDER BY timestamp ASC` per log.  The
position SELECT projects `(timestamp, symbol, size)` (dropping `side`);
the other two return all columns. -/

/-- A row of the positions result set: `SELECT timestamp, symbol, size`. -/
structure PosQueryRow where
  ts : Int
  symbol : Option String
  size : Int
deriving DecidableEq, Repr

/-- The projection the position SELECT applies to a stored row. -/
def projPos (r : PositionRow) : PosQueryRow := ⟨r.ts, r.symbol, r.size⟩

/-- `ORDER BY timestamp ASC` on a result set. -/
def sortRows {α : Type} (ts : α → Int) (l : List α) : List α :=
  List.insertionSort (fun a b => ts a ≤ ts b) l

/-- `RequestHandler._get_historical_data`: `dbExists` models
`os.path.exists(DB_PATH)`; `cutoff` is `utcnow() - timedelta(hours=hours)`. -/
def get_historical_data (dbExists : Bool) (cutoff : Int) (s : Store) :
    Option (List EquityRow) × Option (List PosQueryRow) × Option (List SignalRow) :=
  if dbExists then
    (some (sortRows (·.ts) (s.equity_log.filter (fun r => decide (cutoff < r.ts)))),
     some (sortRows (·.ts) ((s.position_log.filter (fun r => decide (cutoff < r.ts))).map projPos)),
     some (sortRows (·.ts) (s.signal_log.filter (fun r => decide (cutoff < r.ts)))))
  else (none, none, none)

/-! ## Symbol Resolver

Modelled from the spec: the Symbol Resolver of spec §4.2 (the
`resolve(position_symbol, signal_set) → value` operation with its ordered
substring-heuristic table and `PREFERRED_TIMEFRAME` tie-break) has no
implementation under src/ — src/dashboard.py never maps position symbols to
signal assets.  The definitions below follow the spec's words. -/

/-- Modelled from the spec: the configured preferred timeframe identifier
(§4.2, §8: `PREFERRED_TIMEFRAME="15m"`). -/
def PREFERRED_TIMEFRAME : String := "15m"

/-- Modelled from the spec: the static ordered table of
`(substring, asset_id)` heuristics (§4.2, §9): a symbol containing "xbt" or
"btc" maps to "BTCUSDT", one containing "eth" to "ETHUSDT". -/
def HEURISTIC_TABLE : List (String × String) :=
  [("xbt", "BTCUSDT"), ("btc", "BTCUSDT"), ("eth", "ETHUSDT")]

/-- Whether `needle` occurs as a contiguous substring of `hay`. -/
def occursIn (needle : List Char) : List Char → Bool
  | [] => needle.isEmpty
  | c :: t => needle.isPrefixOf (c :: t) || occursIn needle t

/-- ASCII lower-casing of one character (`str.lower` on the ASCII alphabet
the symbols involved use). -/
def charLower (c : Char) : Char :=
  if 65 ≤ c.toNat ∧ c.toNat ≤ 90 then Char.ofNat (c.toNat + 32) else c

/-- The case-insensitive form of a symbol, as a character list. -/
def lowerChars (l : List Char) : List Char := l.map charLower

/-- Modelled from the spec: apply the ordered heuristics to the
case-insensitive form of the position symbol; `none` when no heuristic
matches. -/
def mapSymbol (sym : String) : Option String :=
  (HEURISTIC_TABLE.find? (fun p => occursIn p.1.toList (lowerChars sym.toList))).map (·.2)

/-- One record of a signal set: the timeframe and value retained for an
asset. -/
structure SigRec where
  tf : String
  val : Int
deriving DecidableEq, Repr

/-- Look an asset up in a signal set (an association list keyed by asset). -/
def lookupAsset (a : String) : List (String × SigRec) → Option SigRec
  | [] => none
  | (b, r) :: t => if b = a then some r else lookupAsset a t

/-- Replace the record of asset `a` (or append it when absent). -/
def setAsset (a : String) (r : SigRec) : List (String × SigRec) → List (String × SigRec)
  | [] => [(a, r)]
  | (b, q) :: t => if b = a then (a, r) :: t else (b, q) :: setAsset a r t

/-- Modelled from the spec: fold one `(asset, timeframe, value)` source row
into the signal set — first timeframe observed is kept as a placeholder,
then a preferred-timeframe record unconditionally overwrites (§4.2). -/
def insRow (acc : List (String × SigRec)) (row : String × String × Int) :
    List (String × SigRec) :=
  match lookupAsset row.1 acc with
  | none => setAsset row.1 ⟨row.2.1, row.2.2⟩ acc
  | some _ =>
      if row.2.1 = PREFERRED_TIMEFRAME then setAsset row.1 ⟨row.2.1, row.2.2⟩ acc
      else acc

/-- Modelled from the spec: build the signal set from the source rows in
arrival order. -/
def buildSignalSet (rows : List (String × String × Int)) : List (String × SigRec) :=
  rows.foldl insRow []

/-- Modelled from the spec: `resolve(position_symbol, signal_set) → value`
(§4.2) — heuristic candidate, then lookup, zero on any miss. -/
def resolve (sym : String) (sigset : List (String × SigRec)) : Int :=
  match mapSymbol sym with
  | none => 0
  | some a =>
      match lookupAsset a sigset with
      | none => 0
      | some r => r.val

/-- Modelled from the spec: the value an asset resolves to after folding a
list of source rows into a signal set. -/
def resolvedValue (a : String) (rows : List (String × String × Int)) : Int :=
  match lookupAsset a (buildSignalSet rows) with
  | none => 0
  | some r => r.val

/-- The values of the source rows for asset `a` whose timeframe is the
preferred one, in arrival order — the data the tie-break rule keys on. -/
def preferredValues (a : String) : List (String × String × Int) → List Int
  | [] => []
  | r :: rest =>
      if r.1 = a ∧ r.2.1 = PREFERRED_TIMEFRAME then r.2.2 :: preferredValues a rest
      else preferredValues a rest

/-- The symbols of the well-formed elements of an `openPositions` list, in
order. -/
def okSymbols : List RawPos → List (Option String)
  | [] => []
  | .bad :: t => okSymbols t
  | .ok sym _ _ :: t => sym :: okSymbols t

instance : IsTotal EquityRow (fun a b => a.ts ≤ b.ts) :=
  ⟨fun a b => Int.le_total a.ts b.ts⟩

instance : IsTrans EquityRow (fun a b => a.ts ≤ b.ts) :=
  ⟨fun _ _ _ h h2 => le_trans h h2⟩

instance : IsTotal PosQueryRow (fun a b => a.ts ≤ b.ts) :=
  ⟨fun a b => Int.le_total a.ts b.ts⟩

instance : IsTrans PosQueryRow (fun a b => a.ts ≤ b.ts) :=
  ⟨fun _ _ _ h h2 => le_trans h h2⟩

instance : IsTotal SignalRow (fun a b => a.ts ≤ b.ts) :=
  ⟨fun a b => Int.le_total a.ts b.ts⟩

instance : IsTrans SignalRow (fun a b => a.ts ≤ b.ts) :=
  ⟨fun _ _ _ h h2 => le_trans h h2⟩

/-! ## Helper lemmas about the three sections of `save_history_snapshot` -/

theorem posLoop_eq (now : Int) (l : List RawPos) (t : Pending) :
    (posLoop now l t).eq = t.eq := by
  induction l generalizing t with
  | nil => rfl
  | cons x rest ih =>
      cases x with
      | bad => rfl
      | ok sym size side =>
          cases size with
          | none => rfl
          | some v => simpa using ih { t with pos := t.pos ++ [⟨now, sym, v, side⟩] }

theorem posLoop_sig (now : Int) (l : List RawPos) (t : Pending) :
    (posLoop now l t).sig = t.sig := by
  induction l generalizing t with
  | nil => rfl
  | cons x rest ih =>
      cases x with
      | bad => rfl
      | ok sym size side =>
          cases size with
          | none => rfl
          | some v => simpa using ih { t with pos := t.pos ++ [⟨now, sym, v, side⟩] }

theorem sigLoop_eq (now : Int) (l : List RawSig) (t : Pending) :
    (sigLoop now l t).eq = t.eq := by
  induction l generalizing t with
  | nil => rfl
  | cons x rest ih =>
      cases x with
      | bad => rfl
      | ok a tf sv =>
          cases sv with
          | none => rfl
          | some v => simpa using ih { t with sig := t.sig ++ [⟨now, a, tf, v⟩] }

theorem sigLoop_pos (now : Int) (l : List RawSig) (t : Pending) :
    (sigLoop now l t).pos = t.pos := by
  induction l generalizing t with
  | nil => rfl
  | cons x rest ih =>
      cases x with
      | bad => rfl
      | ok a tf sv =>
          cases sv with
          | none => rfl
          | some v => simpa using ih { t with sig := t.sig ++ [⟨now, a, tf, v⟩] }

theorem posLoop_pos (now : Int) (l : List RawPos) (t : Pending) :
    (posLoop now l t).pos = t.pos ++ (posLoop now l ⟨[], [], []⟩).pos := by
  induction l generalizing t with
  | nil => simp [posLoop]
  | cons x rest ih =>
      cases x with
      | bad => simp [posLoop]
      | ok sym size side =>
          cases size with
          | none => simp [posLoop]
          | some v =>
              simp only [posLoop]
              conv_rhs => rw [ih]
              rw [ih]
              simp

theorem sigLoop_sig (now : Int) (l : List RawSig) (t : Pending) :
    (sigLoop now l t).sig = t.sig ++ (sigLoop now l ⟨[], [], []⟩).sig := by
  induction l generalizing t with
  | nil => simp [sigLoop]
  | cons x rest ih =>
      cases x with
      | bad => simp [sigLoop]
      | ok a tf sv =>
          cases sv with
          | none => simp [sigLoop]
          | some v =>
              simp only [sigLoop]
              conv_rhs => rw [ih]
              rw [ih]
              simp

theorem runEquitySection_pos (now : Int) (p : EquitySource) (t : Pending) :
    (runEquitySection now p t).pos = t.pos := by
  unfold runEquitySection
  cases parseEquity p <;> rfl

theorem runEquitySection_sig (now : Int) (p : EquitySource) (t : Pending) :
    (runEquitySection now p t).sig = t.sig := by
  unfold runEquitySection
  cases parseEquity p <;> rfl

theorem runEquitySection_eq (now : Int) (p : EquitySource) (t : Pending) :
    (runEquitySection now p t).eq = t.eq ++ eqRowsOf now p := by
  unfold runEquitySection eqRowsOf
  cases parseEquity p <;> simp

theorem runPositionsSection_eq (now : Int) (ps : Option (List RawPos)) (t : Pending) :
    (runPositionsSection now ps t).eq = t.eq := by
  cases ps with
  | none => rfl
  | some l => exact posLoop_eq now l t

theorem runPositionsSection_sig (now : Int) (ps : Option (List RawPos)) (t : Pending) :
    (runPositionsSection now ps t).sig = t.sig := by
  cases ps with
  | none => rfl
  | some l => exact posLoop_sig now l t

theorem runPositionsSection_pos (now : Int) (ps : Option (List RawPos)) (t : Pending) :
    (runPositionsSection now ps t).pos = t.pos ++ posRowsOf now ps := by
  cases ps with
  | none => simp [runPositionsSection, posRowsOf]
  | some l => exact posLoop_pos now l t

theorem runSignalsSection_sig (now : Int) (sg : List RawSig) (t : Pending) :
    (runSignalsSection now sg t).sig = t.sig ++ sigRowsOf now sg :=
  sigLoop_sig now sg t

theorem runSignalsSection_eq (now : Int) (sg : List RawSig) (t : Pending) :
    (runSignalsSection now sg t).eq = t.eq :=
  sigLoop_eq now sg t

theorem runSignalsSection_pos (now : Int) (sg : List RawSig) (t : Pending) :
    (runSignalsSection now sg t).pos = t.pos :=
  sigLoop_pos now sg t

/-- The three logs after one `save_history_snapshot` call: each log receives
exactly the rows contributed by its own source. -/
theorem save_logs (now : Int) (p : EquitySource) (ps : Option (List RawPos))
    (sg : List RawSig) (s : Store) :
    (save_history_snapshot now p ps sg s).equity_log = s.equity_log ++ eqRowsOf now p ∧
    (save_history_snapshot now p ps sg s).position_log = s.position_log ++ posRowsOf now ps ∧
    (save_history_snapshot now p ps sg s).signal_log = s.signal_log ++ sigRowsOf now sg := by
  have he : (snapshotPending now p ps sg).eq = eqRowsOf now p := by
    unfold snapshotPending
    rw [runSignalsSection_eq, runPositionsSection_eq, runEquitySection_eq]
    simp
  have hp : (snapshotPending now p ps sg).pos = posRowsOf now ps := by
    unfold snapshotPending
    rw [runSignalsSection_pos, runPositionsSection_pos, runEquitySection_pos]
    simp
  have hs : (snapshotPending now p ps sg).sig = sigRowsOf now sg := by
    unfold snapshotPending
    rw [runSignalsSection_sig, runPositionsSection_sig, runEquitySection_sig]
    simp
  refine ⟨?_, ?_, ?_⟩ <;> simp [save_history_snapshot, he, hp, hs]

theorem eqRowsOf_ts (now : Int) (p : EquitySource) :
    ∀ r ∈ eqRowsOf now p, r.ts = now := by
  unfold eqRowsOf
  cases parseEquity p <;> simp

theorem posRowsOf_some_cons_ok (now : Int) (sym : Option String) (v : Int)
    (side : Option String) (rest : List RawPos) :
    posRowsOf now (some (.ok sym (some v) side :: rest)) =
      ⟨now, sym, v, side⟩ :: posRowsOf now (some rest) := by
  unfold posRowsOf runPositionsSection
  simp only [posLoop]
  rw [posLoop_pos]
  simp

theorem posRowsOf_ts (now : Int) (ps : Option (List RawPos)) :
    ∀ r ∈ posRowsOf now ps, r.ts = now := by
  cases ps with
  | none => simp [posRowsOf, runPositionsSection]
  | some l =>
      induction l with
      | nil => simp [posRowsOf, runPositionsSection, posLoop]
      | cons x rest ih =>
          cases x with
          | bad => simp [posRowsOf, runPositionsSection, posLoop]
          | ok sym size side =>
              cases size with
              | none => simp [posRowsOf, runPositionsSection, posLoop]
              | some v =>
                  rw [posRowsOf_some_cons_ok]
                  intro r hr
                  rcases List.mem_cons.mp hr with h | h
                  · rw [h]
                  · exact ih r h

theorem sigRowsOf_some_cons_ok (now : Int) (a tf : Option String) (v : Int)
    (rest : List RawSig) :
    sigRowsOf now (.ok a tf (some v) :: rest) =
      ⟨now, a, tf, v⟩ :: sigRowsOf now rest := by
  unfold sigRowsOf runSignalsSection
  simp only [sigLoop]
  rw [sigLoop_sig]
  simp

theorem sigRowsOf_ts (now : Int) (sg : List RawSig) :
    ∀ r ∈ sigRowsOf now sg, r.ts = now := by
  induction sg with
  | nil => simp [sigRowsOf, runSignalsSection, sigLoop]
  | cons x rest ih =>
      cases x with
      | bad => simp [sigRowsOf, runSignalsSection, sigLoop]
      | ok a tf sv =>
          cases sv with
          | none => simp [sigRowsOf, runSignalsSection, sigLoop]
          | some v =>
              rw [sigRowsOf_some_cons_ok]
              intro r hr
              rcases List.mem_cons.mp hr with h | h
              · rw [h]
              · exact ih r h

/-! ## Claim theorems -/

/-- C6: for every cutoff instant (`now − R` for a retention window `R`) and
every store state, `prune_old_data` removes exactly the rows with timestamp
strictly older than the cutoff from all three logs: a row survives the prune
iff it was present before and its timestamp is not below the cutoff. -/
theorem C6_prune_exact (cutoff : Int) (s : Store) :
    (∀ r : EquityRow,
      r ∈ (prune_old_data cutoff s).equity_log ↔ r ∈ s.equity_log ∧ ¬ r.ts < cutoff) ∧
    (∀ r : PositionRow,
      r ∈ (prune_old_data cutoff s).position_log ↔ r ∈ s.position_log ∧ ¬ r.ts < cutoff) ∧
    (∀ r : SignalRow,
      r ∈ (prune_old_data cutoff s).signal_log ↔ r ∈ s.signal_log ∧ ¬ r.ts < cutoff) := by
  refine ⟨fun r => ?_, fun r => ?_, fun r => ?_⟩ <;>
    simp [prune_old_data, List.mem_filter]

/-- C7 counterexample: a storage failure during `prune_old_data` is swallowed
by its `except` clause — the caller-visible failure flag is `false`, so the
failing prune does not report the failure to its caller, contrary to the
claim.  (The store is left unchanged, which matches the claim's other half.) -/
theorem C7_cex :
    prune_old_data_run true 0 ⟨[⟨0, 1⟩], [], []⟩ = (⟨[⟨0, 1⟩], [], []⟩, false) := by
  decide

/-- C7 amended: on a storage failure, a failing `save_history_snapshot`
(connect or commit failure) raises to its caller and leaves the committed
store unchanged; a failing `prune_old_data` also leaves the store unchanged
but swallows the failure (flag `false` — nothing is reported to the caller);
a successful prune behaves as `prune_old_data`. -/
theorem C7_failure_state (cutoff now : Int) (p : EquitySource)
    (ps : Option (List RawPos)) (sg : List RawSig) (s : Store) (b : Bool) :
    prune_old_data_run true cutoff s = (s, false) ∧
    save_history_snapshot_run true b now p ps sg s = (s, true) ∧
    save_history_snapshot_run b true now p ps sg s = (s, true) ∧
    prune_old_data_run false cutoff s = (prune_old_data cutoff s, false) := by
  refine ⟨rfl, ?_, ?_, rfl⟩ <;> simp [save_history_snapshot_run]

theorem runLoop_count_aux (ticks : List TickBehavior) :
    ∀ (s : Store) (n : Nat),
      (ticks.foldl (fun acc b => (tick b acc.1, acc.2 + 1)) (s, n)).2 = n + ticks.length := by
  induction ticks with
  | nil => intro s n; simp
  | cons b rest ih =>
      intro s n
      simp only [List.foldl_cons, List.length_cons]
      rw [ih (tick b s) (n + 1)]
      omega

/-- C8: the collector loop's step is total — for every finite schedule of
tick behaviours, including any pattern of fetch, append, or prune failures,
every scheduled tick runs to completion and the loop proceeds to the next
one; no failure inside a tick terminates the loop. -/
theorem C8_loop_never_terminates (ticks : List TickBehavior) (s : Store) :
    (runLoop ticks s).2 = ticks.length := by
  simpa using runLoop_count_aux ticks s 0

/-- C10: one `save_history_snapshot` call writes at most one equity row, and
every row it appends to any of the three logs carries the single timestamp
`now` captured at the start of the call. -/
theorem C10_single_timestamp (now : Int) (p : EquitySource)
    (ps : Option (List RawPos)) (sg : List RawSig) (s : Store) :
    (save_history_snapshot now p ps sg s).equity_log.length ≤ s.equity_log.length + 1 ∧
    ((save_history_snapshot now p ps sg s).equity_log.drop s.equity_log.length).all
      (fun r => r.ts == now) = true ∧
    ((save_history_snapshot now p ps sg s).position_log.drop s.position_log.length).all
      (fun r => r.ts == now) = true ∧
    ((save_history_snapshot now p ps sg s).signal_log.drop s.signal_log.length).all
      (fun r => r.ts == now) = true := by
  obtain ⟨he, hp, hs⟩ := save_logs now p ps sg s
  rw [he, hp, hs, List.drop_left, List.drop_left, List.drop_left]
  refine ⟨?_, ?_, ?_, ?_⟩
  · have : (eqRowsOf now p).length ≤ 1 := by
      unfold eqRowsOf; cases parseEquity p <;> simp
    simp only [List.length_append]
    omega
  · rw [List.all_eq_true]
    intro r hr
    simpa using eqRowsOf_ts now p r hr
  · rw [List.all_eq_true]
    intro r hr
    simpa using posRowsOf_ts now ps r hr
  · rw [List.all_eq_true]
    intro r hr
    simpa using sigRowsOf_ts now sg r hr

/-- C1 counterexample: the range query's lower bound is strict
(`WHERE timestamp > ?`), so a row whose timestamp equals the interval start
is in the store but absent from the result — the inclusive-`[start, end]`
reading fails; and when the database file is absent the query returns
`(None, None, None)`, not empty row sets. -/
theorem C1_cex :
    get_historical_data true 5 ⟨[⟨5, 1⟩], [], []⟩ = (some [], some [], some []) ∧
    get_historical_data false 5 ⟨[⟨5, 1⟩], [], []⟩ = (none, none, none) := by
  decide

/-- C1 amended: when the database file exists, `_get_historical_data`
returns, for each log independently, exactly the rows whose timestamp is
STRICTLY greater than the cutoff (there is no upper bound — the query takes
a duration, not an end instant), ordered by ascending timestamp, with the
position rows projected to `(timestamp, symbol, size)`; an empty range gives
empty (not absent) row sets.  When the database file does not exist the
result is `(None, None, None)` for all three logs. -/
theorem C1_query_semantics (cutoff : Int) (s : Store) :
    get_historical_data false cutoff s = (none, none, none) ∧
    (∀ r : EquityRow, r ∈ ((get_historical_data true cutoff s).1.getD []) ↔
      r ∈ s.equity_log ∧ cutoff < r.ts) ∧
    (∀ pr : PosQueryRow, pr ∈ ((get_historical_data true cutoff s).2.1.getD []) ↔
      ∃ r, r ∈ s.position_log ∧ cutoff < r.ts ∧ projPos r = pr) ∧
    (∀ r : SignalRow, r ∈ ((get_historical_data true cutoff s).2.2.getD []) ↔
      r ∈ s.signal_log ∧ cutoff < r.ts) ∧
    ((get_historical_data true cutoff s).1.getD []).Pairwise (fun a b => a.ts ≤ b.ts) ∧
    ((get_historical_data true cutoff s).2.1.getD []).Pairwise (fun a b => a.ts ≤ b.ts) ∧
    ((get_historical_data true cutoff s).2.2.getD []).Pairwise (fun a b => a.ts ≤ b.ts) := by
  refine ⟨rfl, ?_, ?_, ?_, ?_, ?_, ?_⟩
  · intro r
    simp [get_historical_data, sortRows, List.mem_filter]
  · intro pr
    simp only [get_historical_data, if_true, Option.getD_some]
    simp [sortRows, List.mem_filter, List.mem_map]
    constructor
    · rintro ⟨r, ⟨hr, hlt⟩, hproj⟩
      exact ⟨r, hr, hlt, hproj⟩
    · rintro ⟨r, hr, hlt, hproj⟩
      exact ⟨r, ⟨hr, hlt⟩, hproj⟩
  · intro r
    simp [get_historical_data, sortRows, List.mem_filter]
  · show (sortRows (·.ts)
      (s.equity_log.filter (fun r => decide (cutoff < r.ts)))).Pairwise (fun a b => a.ts ≤ b.ts)
    exact List.sorted_insertionSort _ _
  · show (sortRows (·.ts)
      ((s.position_log.filter (fun r => decide (cutoff < r.ts))).map projPos)).Pairwise
      (fun a b => a.ts ≤ b.ts)
    exact List.sorted_insertionSort _ _
  · show (sortRows (·.ts)
      (s.signal_log.filter (fun r => decide (cutoff < r.ts)))).Pairwise (fun a b => a.ts ≤ b.ts)
    exact List.sorted_insertionSort _ _

/-- C2: per-entry atomicity of `save_history_snapshot` — a reader on another
connection observes either the pre-call store or the fully committed store,
so at the call's timestamp it sees either no rows at all or exactly the full
row set of that tick in all three logs, never a proper non-empty subset. -/
theorem C2_append_atomic (now : Int) (p : EquitySource) (ps : Option (List RawPos))
    (sg : List RawSig) (s o : Store)
    (ho : o ∈ appendObservable now p ps sg s)
    (hpre : rowsAt now s = ([], [], [])) :
    rowsAt now o = ([], [], []) ∨
    rowsAt now o = (eqRowsOf now p, posRowsOf now ps, sigRowsOf now sg) := by
  have h1 : s.equity_log.filter (fun r => r.ts == now) = [] := congrArg (fun x => x.1) hpre
  have h2 : s.position_log.filter (fun r => r.ts == now) = [] :=
    congrArg (fun x => x.2.1) hpre
  have h3 : s.signal_log.filter (fun r => r.ts == now) = [] :=
    congrArg (fun x => x.2.2) hpre
  simp only [appendObservable, List.mem_cons, List.mem_singleton,
    List.not_mem_nil, or_false] at ho
  rcases ho with ho | ho
  · left
    rw [ho, hpre]
  · right
    rw [ho]
    obtain ⟨he, hp, hs⟩ := save_logs now p ps sg s
    show (_, _, _) = (_, _, _)
    refine congrArg₂ _ ?_ (congrArg₂ _ ?_ ?_)
    · rw [he, List.filter_append, h1, List.nil_append]
      rw [List.filter_eq_self]
      intro r hr
      simpa using eqRowsOf_ts now p r hr
    · rw [hp, List.filter_append, h2, List.nil_append]
      rw [List.filter_eq_self]
      intro r hr
      simpa using posRowsOf_ts now ps r hr
    · rw [hs, List.filter_append, h3, List.nil_append]
      rw [List.filter_eq_self]
      intro r hr
      simpa using sigRowsOf_ts now sg r hr

/-- C2 witness: the theorem applied to a concrete append on an empty store. -/
theorem C2_append_atomic_witness :
    rowsAt 3 (save_history_snapshot 3 .noAccounts (some []) [] init_db) = ([], [], []) ∨
    rowsAt 3 (save_history_snapshot 3 .noAccounts (some []) [] init_db) =
      (eqRowsOf 3 .noAccounts, posRowsOf 3 (some []), sigRowsOf 3 []) :=
  C2_append_atomic 3 .noAccounts (some []) [] init_db
    (save_history_snapshot 3 .noAccounts (some []) [] init_db)
    (by simp [appendObservable]) (by decide)

/-- C5 counterexample: when `marginEquity` is present but not numerically
coercible (`float(...)` raises), the equity section is aborted before its
INSERT — no equity row at all is stored, rather than the claimed fallback
row with the default value 0. -/
theorem C5_cex :
    (save_history_snapshot 10 (EquitySource.margin none) (some []) [] init_db).equity_log
      = [] ∧
    (save_history_snapshot 10 (EquitySource.margin none) (some []) [] init_db).equity_log
      ≠ [⟨10, 0⟩] := by
  decide

/-- C5 amended: building and storing the snapshot never fails as a whole,
and the three fields are parsed in independent try/except scopes — each
log's outcome is a function of its own raw source only, so a failure in one
field never aborts conversion or storage of the others.  An ABSENT source
degrades to a stored default (equity row 0, no position rows, no signal
rows).  A numeric-coercion failure, however, does not store that field's
default: the equity row is omitted entirely, and a failing position element
aborts the remainder of the position rows while keeping those already
executed. -/
theorem C5_degraded_defaults (now : Int) (p : EquitySource) (ps : Option (List RawPos))
    (sg : List RawSig) (s : Store) :
    (save_history_snapshot now p ps sg s).equity_log = s.equity_log ++ eqRowsOf now p ∧
    (save_history_snapshot now p ps sg s).position_log = s.position_log ++ posRowsOf now ps ∧
    (save_history_snapshot now p ps sg s).signal_log = s.signal_log ++ sigRowsOf now sg ∧
    eqRowsOf now .noAccounts = [⟨now, 0⟩] ∧
    eqRowsOf now (.margin none) = [] ∧
    posRowsOf now none = [] ∧
    sigRowsOf now [] = [] ∧
    posRowsOf now (some [.ok (some "A") (some 1) none, .ok (some "B") none none,
      .ok (some "C") (some 3) none]) = [⟨now, some "A", 1, none⟩] := by
  obtain ⟨he, hp, hs⟩ := save_logs now p ps sg s
  refine ⟨he, hp, hs, by simp [eqRowsOf, parseEquity], by simp [eqRowsOf, parseEquity],
    by simp [posRowsOf, runPositionsSection], by simp [sigRowsOf, runSignalsSection, sigLoop], ?_⟩
  rw [posRowsOf_some_cons_ok]
  simp [posRowsOf, runPositionsSection, posLoop]

/-- The symbols of the rows the positions section commits form a sublist of
the symbols of the well-formed input elements. -/
theorem posRows_symbols_sublist (now : Int) (l : List RawPos) :
    ((posRowsOf now (some l)).map (fun r => r.symbol)).Sublist (okSymbols l) := by
  induction l with
  | nil => simp [posRowsOf, runPositionsSection, posLoop, okSymbols]
  | cons x rest ih =>
      cases x with
      | bad =>
          simp only [posRowsOf, runPositionsSection, posLoop, okSymbols]
          exact List.nil_sublist _
      | ok sym size side =>
          cases size with
          | none =>
              simp only [posRowsOf, runPositionsSection, posLoop, okSymbols]
              exact List.nil_sublist _
          | some v =>
              rw [posRowsOf_some_cons_ok]
              simp only [List.map_cons, okSymbols]
              exact List.Sublist.cons₂ sym ih

/-- C9 counterexample: `save_history_snapshot` performs no de-duplication of
position symbols — feeding two `openPositions` elements with the same symbol
stores two rows with the same symbol under one entry timestamp, violating
the claimed invariant. -/
theorem C9_cex :
    ((save_history_snapshot 7 .noAccounts
        (some [.ok (some "PF_X") (some 1) none, .ok (some "PF_X") (some 2) none])
        [] init_db).position_log.map (fun r => r.symbol))
      = [some "PF_X", some "PF_X"] ∧
    ¬ ((save_history_snapshot 7 .noAccounts
        (some [.ok (some "PF_X") (some 1) none, .ok (some "PF_X") (some 2) none])
        [] init_db).position_log.map (fun r => r.symbol)).Pairwise (· ≠ ·) := by
  decide

/-- C9 amended: IF the well-formed elements of the input `openPositions`
list have pairwise distinct symbols (as the exchange guarantees), then the
position rows stored under the entry's timestamp by `save_history_snapshot`
have pairwise distinct symbols; the code preserves uniqueness but does not
enforce it. -/
theorem C9_unique_symbols (now : Int) (p : EquitySource) (l : List RawPos)
    (sg : List RawSig) (s : Store)
    (hdup : (okSymbols l).Pairwise (· ≠ ·))
    (hpre : (rowsAt now s).2.1 = []) :
    ((rowsAt now (save_history_snapshot now p (some l) sg s)).2.1.map
      (fun r => r.symbol)).Pairwise (· ≠ ·) := by
  have hpos : (rowsAt now (save_history_snapshot now p (some l) sg s)).2.1
      = posRowsOf now (some l) := by
    have hpre' : List.filter (fun r => r.ts == now) s.position_log = [] := hpre
    show (save_history_snapshot now p (some l) sg s).position_log.filter
      (fun r => r.ts == now) = _
    rw [(save_logs now p (some l) sg s).2.1, List.filter_append, hpre', List.nil_append]
    rw [List.filter_eq_self]
    intro r hr
    simpa using posRowsOf_ts now (some l) r hr
  rw [hpos]
  exact hdup.sublist (posRows_symbols_sublist now l)

/-- C9 witness: the amended theorem at a concrete two-position input with
distinct symbols. -/
theorem C9_unique_symbols_witness :
    ((rowsAt 7 (save_history_snapshot 7 .noAccounts
        (some [.ok (some "A") (some 1) none, .ok (some "B") (some 2) none])
        [] init_db)).2.1.map (fun r => r.symbol)).Pairwise (· ≠ ·) :=
  C9_unique_symbols 7 .noAccounts
    [.ok (some "A") (some 1) none, .ok (some "B") (some 2) none]
    [] init_db (by decide) (by decide)

/-! ## Resolver lemmas (spec-modelled component) -/

theorem lookupAsset_setAsset_self (a : String) (r : SigRec) (l : List (String × SigRec)) :
    lookupAsset a (setAsset a r l) = some r := by
  induction l with
  | nil => simp [setAsset, lookupAsset]
  | cons x t ih =>
      obtain ⟨b, q⟩ := x
      by_cases h : b = a
      · subst h
        simp [setAsset, lookupAsset]
      · simp [setAsset, lookupAsset, h, ih]

theorem lookupAsset_setAsset_ne (a b : String) (hne : b ≠ a) (r : SigRec)
    (l : List (String × SigRec)) :
    lookupAsset a (setAsset b r l) = lookupAsset a l := by
  induction l with
  | nil => simp [setAsset, lookupAsset, hne]
  | cons x t ih =>
      obtain ⟨c, q⟩ := x
      by_cases h : c = b
      · subst h
        simp [setAsset, lookupAsset, hne]
      · simp [setAsset, lookupAsset, h, ih]

theorem insRow_preserves_preferred (a : String) (v : Int)
    (acc : List (String × SigRec)) (row : String × String × Int)
    (hacc : lookupAsset a acc = some ⟨PREFERRED_TIMEFRAME, v⟩)
    (hrow : ¬ (row.1 = a ∧ row.2.1 = PREFERRED_TIMEFRAME)) :
    lookupAsset a (insRow acc row) = some ⟨PREFERRED_TIMEFRAME, v⟩ := by
  unfold insRow
  by_cases h1 : row.1 = a
  · have h2 : ¬ row.2.1 = PREFERRED_TIMEFRAME := fun hc => hrow ⟨h1, hc⟩
    rw [h1, hacc]
    simp only [h2, if_false]
    exact hacc
  · cases hl : lookupAsset row.1 acc with
    | none =>
        simp only [hl]
        rw [lookupAsset_setAsset_ne a row.1 h1]
        exact hacc
    | some q =>
        simp only [hl]
        by_cases h3 : row.2.1 = PREFERRED_TIMEFRAME
        · simp only [h3, if_true]
          rw [lookupAsset_setAsset_ne a row.1 h1]
          exact hacc
        · simp only [h3, if_false]
          exact hacc

theorem foldl_insRow_preserves_preferred (a : String) (v : Int) :
    ∀ (rows : List (String × String × Int)) (acc : List (String × SigRec)),
      lookupAsset a acc = some ⟨PREFERRED_TIMEFRAME, v⟩ →
      (∀ r ∈ rows, ¬ (r.1 = a ∧ r.2.1 = PREFERRED_TIMEFRAME)) →
      lookupAsset a (rows.foldl insRow acc) = some ⟨PREFERRED_TIMEFRAME, v⟩ := by
  intro rows
  induction rows with
  | nil =>
      intro acc h _
      simpa using h
  | cons x rest ih =>
      intro acc h hall
      simp only [List.foldl_cons]
      exact ih (insRow acc x)
        (insRow_preserves_preferred a v acc x h (hall x (List.mem_cons_self x rest)))
        (fun r hr => hall r (List.mem_cons_of_mem x hr))

theorem preferredValues_eq_nil (a : String) :
    ∀ (rows : List (String × String × Int)), preferredValues a rows = [] →
      ∀ r ∈ rows, ¬ (r.1 = a ∧ r.2.1 = PREFERRED_TIMEFRAME) := by
  intro rows
  induction rows with
  | nil => simp
  | cons x rest ih =>
      intro h r hr
      by_cases hx : x.1 = a ∧ x.2.1 = PREFERRED_TIMEFRAME
      · simp only [preferredValues] at h
        rw [if_pos hx] at h
        exact absurd h (List.cons_ne_nil _ _)
      · simp only [preferredValues] at h
        rw [if_neg hx] at h
        rcases List.mem_cons.mp hr with h' | h'
        · rw [h']
          exact hx
        · exact ih h r h'

theorem buildSignalSet_preferred (a : String) (v : Int) :
    ∀ (rows : List (String × String × Int)) (acc : List (String × SigRec)),
      preferredValues a rows = [v] →
      lookupAsset a (rows.foldl insRow acc) = some ⟨PREFERRED_TIMEFRAME, v⟩ := by
  intro rows
  induction rows with
  | nil =>
      intro acc h
      simp [preferredValues] at h
  | cons x rest ih =>
      intro acc h
      by_cases hx : x.1 = a ∧ x.2.1 = PREFERRED_TIMEFRAME
      · simp only [preferredValues] at h
        rw [if_pos hx] at h
        injection h with hv hnil
        have hrest := preferredValues_eq_nil a rest hnil
        have hacc : lookupAsset a (insRow acc x) = some ⟨PREFERRED_TIMEFRAME, v⟩ := by
          obtain ⟨h1, h2⟩ := hx
          unfold insRow
          cases hl : lookupAsset x.1 acc with
          | none =>
              simp only [hl]
              rw [h1, h2, hv]
              exact lookupAsset_setAsset_self a _ acc
          | some q =>
              simp only [hl]
              rw [if_pos h2, h1, h2, hv]
              exact lookupAsset_setAsset_self a _ acc
        simp only [List.foldl_cons]
        exact foldl_insRow_preserves_preferred a v rest (insRow acc x) hacc hrest
      · simp only [preferredValues] at h
        rw [if_neg hx] at h
        simp only [List.foldl_cons]
        exact ih (insRow acc x) h

/-- C3: the spec-modelled Symbol Resolver maps the position symbol through
the ordered case-insensitive substring table and returns the candidate's
value when the candidate asset is in the signal set and zero otherwise —
including the spec's two concrete examples; the resolver is a total
function, so it never raises. -/
theorem C3_resolve (sym : String) (sigset : List (String × SigRec))
    (a : String) (r : SigRec) :
    resolve "ff_xbtusd" [("BTCUSDT", ⟨"15m", 1⟩)] = 1 ∧
    resolve "unknown_sym" [("BTCUSDT", ⟨"15m", 1⟩)] = 0 ∧
    (mapSymbol sym = none → resolve sym sigset = 0) ∧
    (mapSymbol sym = some a → lookupAsset a sigset = some r → resolve sym sigset = r.val) ∧
    (mapSymbol sym = some a → lookupAsset a sigset = none → resolve sym sigset = 0) := by
  refine ⟨by decide, by decide, ?_, ?_, ?_⟩
  · intro h
    simp [resolve, h]
  · intro h1 h2
    simp [resolve, h1, h2]
  · intro h1 h2
    simp [resolve, h1, h2]

/-- C3 witness: the theorem applied at concrete inputs — an unmappable
symbol degrades to 0, a mappable symbol with a matching signal-set entry
returns that entry's value. -/
theorem C3_resolve_witness :
    resolve "doge_usd" [("BTCUSDT", ⟨"15m", 1⟩)] = 0 ∧
    resolve "PF_ETHUSD" [("ETHUSDT", ⟨"15m", 2⟩)] = 2 :=
  ⟨(C3_resolve "doge_usd" [("BTCUSDT", ⟨"15m", 1⟩)] "BTCUSDT" ⟨"15m", 1⟩).2.2.1
      (by decide),
   (C3_resolve "PF_ETHUSD" [("ETHUSDT", ⟨"15m", 2⟩)] "ETHUSDT" ⟨"15m", 2⟩).2.2.2.1
      (by decide) (by decide)⟩

/-- C4 counterexample: with two NON-preferred timeframes for one asset, the
spec's placeholder-then-overwrite-on-preferred policy is order dependent —
the first-seen non-preferred record fills the gap and later non-preferred
records are ignored, so reversing the arrival order changes the resolved
value (1 vs 2).  Full permutation invariance, as the claim states it for
every multiset, fails. -/
theorem C4_cex :
    resolvedValue "BTCUSDT" [("BTCUSDT", "1h", 1), ("BTCUSDT", "4h", 2)] = 1 ∧
    resolvedValue "BTCUSDT" [("BTCUSDT", "4h", 2), ("BTCUSDT", "1h", 1)] = 2 := by
  decide

/-- C4 amended: when the rows carry exactly one record for the asset whose
timeframe equals `PREFERRED_TIMEFRAME`, that record wins regardless of
arrival order — the resolved value equals its value for every input
ordering satisfying the hypothesis (which is permutation invariant) — and
the claim's concrete example resolves to −1 in both orders. -/
theorem C4_preferred_wins (a : String) (v : Int)
    (rows : List (String × String × Int))
    (h : preferredValues a rows = [v]) :
    resolvedValue a rows = v ∧
    resolvedValue "BTCUSDT" [("BTCUSDT", "1h", 1), ("BTCUSDT", "15m", -1)] = -1 ∧
    resolvedValue "BTCUSDT" [("BTCUSDT", "15m", -1), ("BTCUSDT", "1h", 1)] = -1 := by
  refine ⟨?_, by decide, by decide⟩
  unfold resolvedValue buildSignalSet
  rw [buildSignalSet_preferred a v rows [] h]

/-- C4 witness: the amended theorem at the spec's concrete example. -/
theorem C4_preferred_wins_witness :
    resolvedValue "BTCUSDT" [("BTCUSDT", "1h", 1), ("BTCUSDT", "15m", -1)] = -1 :=
  (C4_preferred_wins "BTCUSDT" (-1) [("BTCUSDT", "1h", 1), ("BTCUSDT", "15m", -1)]
    (by decide)).1

end PrimateMonitor
